import Mathlib

/-!
Verification development for the coupon-issuance service.

The definitions below are a shallow embedding of the Go sources:
`internal/service/coupon_service.go` (code generation, campaign creation,
issuance, read path), `internal/repository` (campaign and coupon
repositories), and the SQL schema (`coupons` table, whose `issued_at`
column carries a `DEFAULT NOW()`).  Machine integers are modelled as `Nat`
with explicit `% 2 ^ 64` / `% 256` where Go wraps; coupon codes are
modelled as their rune sequences (`List Char`); database rows are records
and the database is explicit state threaded through the operations.
-/

namespace CouponSys

/-! ## Alphabets (generateSecureCoupon, coupon_service.go lines 98-102) -/

/-- The ten digit runes of `digits := []rune("0123456789")`. -/
def digits : List Char :=
  ['0', '1', '2', '3', '4', '5', '6', '7', '8', '9']

/-- The 28 Hangul runes of `hanguls`. -/
def hanguls : List Char :=
  ['가', '나', '다', '라', '마', '바', '사', '아', '자', '차', '카', '타', '파', '하',
   '거', '너', '더', '러', '머', '버', '서', '어', '저', '처', '커', '터', '퍼', '허']

/-- The combined pool `pool := append(digits, hanguls...)` (38 runes). -/
def pool : List Char := digits ++ hanguls

/-! ## Sequence and key derivation (coupon_service.go lines 138-165) -/

/-- `campaignIDToSequence`: the campaign id (an `int64`) reinterpreted as
`uint64`, i.e. its value modulo `2 ^ 64`. -/
def campaignIDToSequence (campaignID : Int) : Nat :=
  (campaignID % ((2 : Int) ^ 64)).toNat

/-- `createUniqueSequence`: `(campaignSeq << 32) | couponIndex` in `uint64`
arithmetic.  `couponIndex` is the `uint64` value of the index. -/
def createUniqueSequence (campaignID : Int) (couponIndex : Nat) : Nat :=
  (((campaignIDToSequence campaignID) <<< 32) % (2 ^ 64)) ||| (couponIndex % (2 ^ 64))

/-- One byte of the derived campaign key:
`byte((hash >> (i % 8)) ^ uint64(i*7))`. -/
def keyByte (hash i : Nat) : Nat :=
  ((hash >>> (i % 8)) ^^^ (i * 7)) % 256

/-- `generateCampaignKey`: the deterministic 16-byte AES key of a campaign. -/
def generateCampaignKey (campaignID : Int) : List Nat :=
  List.ofFn (fun i : Fin 16 => keyByte (campaignIDToSequence campaignID) i.val)

/-! ## AES-128 single-block encryption

The Go code uses `crypto/aes` (`aes.NewCipher(key)` with a 16-byte key and
`block.Encrypt`), i.e. standard FIPS-197 AES-128 on one block.  We embed it
concretely.  Bytes are `Nat` values below 256; the state is the flat
16-byte list in the standard order (byte `4*c + r` is row `r`, column `c`).
-/

/-- Multiplication by `x` in GF(2^8) modulo the AES polynomial `0x11b`. -/
def xtime (a : Nat) : Nat :=
  let d := a * 2
  if d < 256 then d else d ^^^ 0x11b

/-- Fuelled GF(2^8) product accumulator (Russian-peasant multiplication). -/
def gfMulAux : Nat → Nat → Nat → Nat → Nat
  | 0, _, _, acc => acc
  | n + 1, a, b, acc =>
      gfMulAux n (xtime a) (b / 2) (if b % 2 = 1 then acc ^^^ a else acc)

/-- Product in GF(2^8). -/
def gfMul (a b : Nat) : Nat := gfMulAux 8 a b 0

/-- Power in GF(2^8). -/
def gfPow (a : Nat) : Nat → Nat
  | 0 => 1
  | n + 1 => gfMul a (gfPow a n)

/-- Multiplicative inverse in GF(2^8) (0 maps to 0). -/
def gfInv (a : Nat) : Nat := if a = 0 then 0 else gfPow a 254

/-- Rotate an 8-bit value left by `k` bits. -/
def rotl8 (x k : Nat) : Nat := ((x <<< k) ||| (x >>> (8 - k))) % 256

/-- The AES S-box: inversion in GF(2^8) followed by the affine transform. -/
def sboxByte (a : Nat) : Nat :=
  let i := gfInv a
  (i ^^^ rotl8 i 1 ^^^ rotl8 i 2 ^^^ rotl8 i 3 ^^^ rotl8 i 4 ^^^ 0x63) % 256

/-- Apply the S-box to each byte of a word. -/
def subWord (w : List Nat) : List Nat := w.map sboxByte

/-- Rotate a 4-byte word left by one byte. -/
def rotWord (w : List Nat) : List Nat := w.drop 1 ++ w.take 1

/-- Bytewise XOR of two words. -/
def xorW (a b : List Nat) : List Nat := List.zipWith (· ^^^ ·) a b

/-- Round-constant byte: `rconByte n = x ^ n` in GF(2^8). -/
def rconByte : Nat → Nat
  | 0 => 1
  | n + 1 => xtime (rconByte n)

/-- The next word of the AES-128 key schedule, given the words so far. -/
def nextWord (ws : List (List Nat)) : List Nat :=
  let i := ws.length
  let prev := ws.getD (i - 1) [0, 0, 0, 0]
  let w4 := ws.getD (i - 4) [0, 0, 0, 0]
  if i % 4 = 0 then
    xorW (xorW w4 (subWord (rotWord prev))) [rconByte (i / 4 - 1), 0, 0, 0]
  else
    xorW w4 prev

/-- Append `n` further words to the key schedule. -/
def expandAux : Nat → List (List Nat) → List (List Nat)
  | 0, ws => ws
  | n + 1, ws => expandAux n (ws ++ [nextWord ws])

/-- The 44 words of the AES-128 key schedule of a 16-byte key. -/
def keySchedule (key : List Nat) : List (List Nat) :=
  expandAux 40 [key.take 4, (key.drop 4).take 4, (key.drop 8).take 4, (key.drop 12).take 4]

/-- The 16-byte round key of round `r`. -/
def roundKey (ws : List (List Nat)) (r : Nat) : List Nat :=
  ws.getD (4 * r) [0, 0, 0, 0] ++ ws.getD (4 * r + 1) [0, 0, 0, 0] ++
    ws.getD (4 * r + 2) [0, 0, 0, 0] ++ ws.getD (4 * r + 3) [0, 0, 0, 0]

/-- SubBytes. -/
def subBytes (s : List Nat) : List Nat := s.map sboxByte

/-- Source index of state byte `i` under ShiftRows (row `r` rotates left by `r`). -/
def shiftRowsIdx (i : Nat) : Nat :=
  let r := i % 4
  let c := i / 4
  4 * ((c + r) % 4) + r

/-- ShiftRows. -/
def shiftRows (s : List Nat) : List Nat :=
  List.ofFn (fun i : Fin 16 => s.getD (shiftRowsIdx i.val) 0)

/-- MixColumns. -/
def mixColumns (s : List Nat) : List Nat :=
  List.ofFn (fun i : Fin 16 =>
    let c := i.val / 4
    let a := fun j => s.getD (4 * c + j) 0
    match i.val % 4 with
    | 0 => gfMul 2 (a 0) ^^^ gfMul 3 (a 1) ^^^ a 2 ^^^ a 3
    | 1 => a 0 ^^^ gfMul 2 (a 1) ^^^ gfMul 3 (a 2) ^^^ a 3
    | 2 => a 0 ^^^ a 1 ^^^ gfMul 2 (a 2) ^^^ gfMul 3 (a 3)
    | _ => gfMul 3 (a 0) ^^^ a 1 ^^^ a 2 ^^^ gfMul 2 (a 3))

/-- AddRoundKey. -/
def addRoundKey (s k : List Nat) : List Nat := List.zipWith (· ^^^ ·) s k

/-- One middle round. -/
def aesRound (rk s : List Nat) : List Nat :=
  addRoundKey (mixColumns (shiftRows (subBytes s))) rk

/-- The final round (no MixColumns). -/
def aesFinalRound (rk s : List Nat) : List Nat :=
  addRoundKey (shiftRows (subBytes s)) rk

/-- AES-128 encryption of a single 16-byte block. -/
def aesEncrypt (key block : List Nat) : List Nat :=
  let ws := keySchedule key
  let s0 := addRoundKey block (roundKey ws 0)
  let s9 := (List.range 9).foldl (fun s r => aesRound (roundKey ws (r + 1)) s) s0
  aesFinalRound (roundKey ws 10) s9

/-! ## Byte packing (encoding/binary big-endian) -/

/-- `binary.BigEndian.PutUint64`: the eight big-endian bytes of a `uint64`. -/
def beBytes8 (v : Nat) : List Nat :=
  [(v >>> 56) % 256, (v >>> 48) % 256, (v >>> 40) % 256, (v >>> 32) % 256,
   (v >>> 24) % 256, (v >>> 16) % 256, (v >>> 8) % 256, v % 256]

/-- `binary.BigEndian.Uint64`: read the first eight bytes as a big-endian
unsigned 64-bit integer. -/
def beUint64 (l : List Nat) : Nat :=
  (l.take 8).foldl (fun acc b => acc * 256 + b) 0

/-! ## Code generation (generateSecureCoupon, coupon_service.go lines 96-136) -/

/-- The body loop `for i := 7; i >= 0; i-- { body[i] = pool[v%base]; v /= base }`:
`base38Body v n` is the list of the last `n` body runes. -/
def base38Body : Nat → Nat → List Char
  | _, 0 => []
  | v, n + 1 => base38Body (v / 38) n ++ [pool.getD (v % 38) '0']

/-- `generateSecureCoupon`: the deterministic 10-rune coupon code of a
campaign id and coupon index. -/
def generateSecureCoupon (campaignID : Int) (couponIndex : Nat) : List Char :=
  let seq := createUniqueSequence campaignID couponIndex
  let key := generateCampaignKey campaignID
  let plain := List.replicate 8 0 ++ beBytes8 seq
  let cipher := aesEncrypt key plain
  let digit := digits.getD (cipher.getD 0 0 % 10) '0'
  let hang := hanguls.getD (cipher.getD 1 0 % hanguls.length) '0'
  let v := beUint64 (cipher.drop 8)
  digit :: hang :: base38Body v 8

/-! ## Data model (internal/model/campaign.go and the SQL schema)

`issuedAt` is an `Option Nat` modelling the nullable-in-principle
`issued_at` column; note that the schema declares
`issued_at TIMESTAMP WITH TIME ZONE DEFAULT NOW()`, so an insert that
omits the column (as `insertCouponBatch` does) stores the current time,
not NULL. -/

/-- Coupon status: the `status` column, `'available'` or `'issued'`. -/
inductive CStatus
  | available
  | issued
deriving DecidableEq

/-- A row of the `campaigns` table. -/
structure Campaign where
  id : Int
  availableCoupons : Int
  startDate : Nat
  createdAt : Nat
  updatedAt : Nat
deriving DecidableEq

/-- A row of the `coupons` table. -/
structure Coupon where
  code : List Char
  campaignID : Int
  status : CStatus
  issuedAt : Option Nat
  createdAt : Nat
deriving DecidableEq

/-- The visible database state.  `nextCampaignId` models the `BIGSERIAL`
sequence behind `campaigns.id`. -/
structure DBState where
  campaigns : List Campaign
  coupons : List Coupon
  nextCampaignId : Int
deriving DecidableEq

/-- The initial, empty database. -/
def dbInit : DBState := { campaigns := [], coupons := [], nextCampaignId := 1 }

/-- Errors surfaced by the service operations.  `panicked` models a Go
runtime panic escaping the handler (the creation path panics in
`make([]string, 0, int(availableCoupons))` when the capacity is negative);
the deferred rollback still discards the transaction. -/
inductive SvcErr
  | notFound
  | precondition
  | exhausted
  | internal
  | panicked
deriving DecidableEq

deriving instance DecidableEq for Except

/-! ## Campaign repository (repository/campaign.go) -/

/-- `GetCampaign`: `SELECT ... FROM campaigns WHERE id = $1`. -/
def getCampaignRow (db : DBState) (cid : Int) : Option Campaign :=
  db.campaigns.find? (fun c => c.id == cid)

/-- Comparison used by `ORDER BY issued_at ASC`. -/
def issuedLe (a b : Coupon) : Prop :=
  a.issuedAt.getD 0 ≤ b.issuedAt.getD 0

instance : DecidableRel issuedLe := fun _ _ => Nat.decLe _ _

instance : IsTotal Coupon issuedLe := ⟨fun _ _ => Nat.le_total _ _⟩

instance : IsTrans Coupon issuedLe := ⟨fun _ _ _ h1 h2 => Nat.le_trans h1 h2⟩

/-- `GetCampaignWithCoupons`: the campaign row together with
`SELECT code FROM coupons WHERE campaign_id = $1 AND status = 'issued'
ORDER BY issued_at ASC`. -/
def getCampaignWithCoupons (db : DBState) (cid : Int) :
    Except SvcErr (Campaign × List (List Char)) :=
  match getCampaignRow db cid with
  | none => .error .notFound
  | some camp =>
      let rows :=
        List.insertionSort issuedLe
          (db.coupons.filter (fun c => c.campaignID == cid && c.status == .issued))
      .ok (camp, rows.map (fun c => c.code))

/-! ## Coupon repository (repository/coupon.go) -/

/-- Comparison used by `ORDER BY created_at ASC`. -/
def createdLe (a b : Coupon) : Prop :=
  a.createdAt ≤ b.createdAt

instance : DecidableRel createdLe := fun _ _ => Nat.decLe _ _

/-- The `WHERE campaign_id = $1 AND status = 'available'` predicate. -/
def isAvailFor (cid : Int) (c : Coupon) : Bool :=
  c.campaignID == cid && c.status == .available

/-- The Available rows of a campaign. -/
def availRows (db : DBState) (cid : Int) : List Coupon :=
  db.coupons.filter (isAvailFor cid)

/-- The codes of the Available rows of a campaign. -/
def availableCodes (db : DBState) (cid : Int) : List (List Char) :=
  (availRows db cid).map (fun c => c.code)

/-- `ReserveAvailableCoupon`: select the code of one Available row of the
campaign, oldest `created_at` first (`... ORDER BY created_at ASC LIMIT 1
FOR UPDATE SKIP LOCKED`; in the serialized transaction model the lock skip
never excludes a row). -/
def reserveAvailableCoupon (db : DBState) (cid : Int) : Option (List Char) :=
  ((List.insertionSort createdLe (availRows db cid)).head?).map (fun c => c.code)

/-- The row update of `MarkCouponAsIssued` on one row:
`SET status = 'issued', issued_at = $1 WHERE code = $2 AND status = 'available'`. -/
def markIssuedRow (code : List Char) (now : Nat) (c : Coupon) : Coupon :=
  if c.code == code && c.status == .available then
    { c with status := .issued, issuedAt := some now }
  else c

/-- `MarkCouponAsIssued`: update the matching Available row, failing when
no row is affected. -/
def markCouponAsIssued (db : DBState) (code : List Char) (now : Nat) : Option DBState :=
  if db.coupons.countP (fun c => c.code == code && c.status == .available) = 0 then none
  else some { db with coupons := db.coupons.map (markIssuedRow code now) }

/-! ## Issuance (IssueCoupon, coupon_service.go lines 196-265)

Each call is one short transaction (`SELECT ... FOR UPDATE SKIP LOCKED`
then `UPDATE`, then commit); the storage layer serializes contending
transactions, so a burst of concurrent calls is modelled as the atomic
steps below in an arbitrary order. -/

/-- `IssueCoupon` on a database state at time `now`: look the campaign up,
check the start date, reserve one Available coupon and mark it issued. -/
def IssueCoupon (db : DBState) (cid : Int) (now : Nat) :
    Except SvcErr (List Char) × DBState :=
  match getCampaignRow db cid with
  | none => (.error .notFound, db)
  | some camp =>
      if now < camp.startDate then (.error .precondition, db)
      else
        match reserveAvailableCoupon db cid with
        | none => (.error .exhausted, db)
        | some code =>
            match markCouponAsIssued db code now with
            | none => (.error .internal, db)
            | some db₂ => (.ok code, db₂)

/-- A burst of issuance calls, one per timestamp, executed in order. -/
def issueRun (db : DBState) (cid : Int) : List Nat → List (Except SvcErr (List Char)) × DBState
  | [] => ([], db)
  | t :: ts =>
      let r := IssueCoupon db cid t
      let rest := issueRun r.2 cid ts
      (r.1 :: rest.1, rest.2)

/-- The codes of the successful calls of a burst. -/
def successes (rs : List (Except SvcErr (List Char))) : List (List Char) :=
  rs.filterMap (fun r => match r with | .ok c => some c | .error _ => none)

/-! ## Campaign creation (CreateCampaign, coupon_service.go lines 37-94)

The whole call is one transaction: `defer tx.Rollback()` discards every
staged write unless the final `tx.Commit()` runs.  We thread the
transaction view explicitly and return the original state on every
failure path.  `CreateFail` is the failure oracle saying which step, if
any, fails. -/

/-- Which step of a `CreateCampaign` call fails. -/
inductive CreateFail
  | noFail
  | atBegin
  | atInsertCampaign
  | atGen (i : Nat)
  | atChunk (j : Nat)
  | atCommit
deriving DecidableEq

/-- Whether the code-generation loop over `n` indices hits the failure. -/
def genFails (n : Nat) : CreateFail → Bool
  | .atGen i => i < n
  | _ => false

/-- The code-generation loop: `generateSecureCoupon(campaign.ID, uint64(i))`
for `i` in `[0, n)`. -/
def genCodes (cid : Int) (n : Nat) (fail : CreateFail) : Option (List (List Char)) :=
  if genFails n fail then none
  else some ((List.range n).map (generateSecureCoupon cid))

/-- The coupon row staged for one code by `insertCouponBatch`: status
`'available'`, the shared `created_at`, and the schema default `NOW()` for
the omitted `issued_at` column. -/
def mkCouponRow (cid : Int) (createdAt issuedDefault : Nat) (code : List Char) : Coupon :=
  { code := code, campaignID := cid, status := .available,
    issuedAt := some issuedDefault, createdAt := createdAt }

/-- `insertCouponBatch`: stage one chunk of rows inside the transaction. -/
def insertCouponBatch (tx : DBState) (cid : Int) (codes : List (List Char))
    (createdAt issuedDefault : Nat) : DBState :=
  { tx with coupons := tx.coupons ++ codes.map (mkCouponRow cid createdAt issuedDefault) }

/-- Fuelled chunking: each step takes one chunk of `batchSize := 1000`
and drops it.  The fuel bounds the number of steps; each step consumes at
least one element, so `l.length` fuel always suffices. -/
def chunksOfFuel : Nat → List α → List (List α)
  | _, [] => []
  | 0, _ :: _ => []
  | f + 1, x :: xs => ((x :: xs).take 1000) :: chunksOfFuel f ((x :: xs).drop 1000)

/-- Split a list into chunks of `batchSize := 1000`, as the loop of
`CreatePregeneratedCoupons` does. -/
def chunksOf (l : List α) : List (List α) := chunksOfFuel l.length l

/-- The chunk loop of `CreatePregeneratedCoupons`, chunk index `j`. -/
def insertChunksGo (cid : Int) (createdAt issuedDefault : Nat) (fail : CreateFail) :
    DBState → List (List (List Char)) → Nat → Option DBState
  | tx, [], _ => some tx
  | tx, b :: bs, j =>
      if fail = .atChunk j then none
      else insertChunksGo cid createdAt issuedDefault fail
        (insertCouponBatch tx cid b createdAt issuedDefault) bs (j + 1)

/-- `CreatePregeneratedCoupons`: capture `now` once, then insert the codes
in chunks of 1000 inside the transaction. -/
def createPregeneratedCoupons (tx : DBState) (cid : Int) (codes : List (List Char))
    (createdAt issuedDefault : Nat) (fail : CreateFail) : Option DBState :=
  insertChunksGo cid createdAt issuedDefault fail tx (chunksOf codes) 0

/-- The campaign row staged by `CreateCampaign` (`CreateCampaign` in the
campaign repository sets `created_at = updated_at = now` and the
`BIGSERIAL` sequence assigns the id). -/
def campRow (db : DBState) (n : Int) (startDate tCampaign : Nat) : Campaign :=
  { id := db.nextCampaignId, availableCoupons := n, startDate := startDate,
    createdAt := tCampaign, updatedAt := tCampaign }

/-- The transaction view after the campaign insert. -/
def txAfterCampaignInsert (db : DBState) (n : Int) (startDate tCampaign : Nat) : DBState :=
  { db with
      campaigns := db.campaigns ++ [campRow db n startDate tCampaign],
      nextCampaignId := db.nextCampaignId + 1 }

/-- `CreateCampaign`: one transaction inserting the campaign row, generating
all codes, bulk-inserting the coupon rows, and committing.  Every failure
path returns the untouched original state (`defer tx.Rollback()`).  After
the campaign insert the handler runs
`make([]string, 0, int(availableCoupons))`; for a negative count this
panics at runtime (negative slice capacity) before any code is generated,
and the deferred rollback discards the transaction. -/
def createCampaignTx (db : DBState) (n : Int) (startDate : Nat)
    (tCampaign tCoupons issuedDefault : Nat) (fail : CreateFail) :
    Except SvcErr Campaign × DBState :=
  if fail = .atBegin then (.error .internal, db)
  else if fail = .atInsertCampaign then (.error .internal, db)
  else if n < 0 then (.error .panicked, db)
  else
    match genCodes db.nextCampaignId n.toNat fail with
    | none => (.error .internal, db)
    | some codes =>
        match createPregeneratedCoupons (txAfterCampaignInsert db n startDate tCampaign)
            db.nextCampaignId codes tCoupons issuedDefault fail with
        | none => (.error .internal, db)
        | some tx₂ =>
            if fail = .atCommit then (.error .internal, db)
            else (.ok (campRow db n startDate tCampaign), tx₂)

/-! ## Reachable database states -/

/-- States reachable from the empty database through the service
operations (the read path does not change state). -/
inductive Reach : DBState → Prop
  | init : Reach dbInit
  | create (db : DBState) (n : Int) (sd t₁ t₂ t₃ : Nat) (fail : CreateFail) :
      Reach db → Reach (createCampaignTx db n sd t₁ t₂ t₃ fail).2
  | issue (db : DBState) (cid : Int) (now : Nat) :
      Reach db → Reach (IssueCoupon db cid now).2

/-! ## General list helpers -/

theorem getD_mem (l : List α) (n : Nat) (d : α) (h : n < l.length) :
    l.getD n d ∈ l := by
  rw [List.getD_eq_getElem?_getD, List.getElem?_eq_getElem h]
  exact List.getElem_mem h

/-! ## Shape of the base-38 body -/

theorem base38Body_length (n : Nat) : ∀ v : Nat, (base38Body v n).length = n := by
  induction n with
  | zero => intro v; rfl
  | succ n ih => intro v; simp [base38Body, ih]

theorem pool_length : pool.length = 38 := rfl

theorem base38Body_mem_pool (n : Nat) : ∀ (v : Nat), ∀ ch ∈ base38Body v n, ch ∈ pool := by
  induction n with
  | zero => intro v ch h; cases h
  | succ n ih =>
      intro v ch h
      simp only [base38Body, List.mem_append, List.mem_singleton] at h
      rcases h with h | h
      · exact ih _ ch h
      · subst h
        exact getD_mem _ _ _ (by rw [pool_length]; exact Nat.mod_lt _ (by norm_num))

theorem base38Body_eq_map (n : Nat) : ∀ v : Nat,
    base38Body v n = (List.range n).map (fun i => pool.getD ((v / 38 ^ (n - 1 - i)) % 38) '0') := by
  induction n with
  | zero => intro v; rfl
  | succ n ih =>
      intro v
      rw [base38Body, ih (v / 38), List.range_succ, List.map_append]
      congr 1
      · apply List.map_congr_left
        intro i hi
        rw [List.mem_range] at hi
        rw [Nat.div_div_eq_div_mul]
        have hexp : 38 * 38 ^ (n - 1 - i) = 38 ^ (n + 1 - 1 - i) := by
          rw [← Nat.pow_succ']
          congr 1
          omega
        rw [hexp]
      · simp

/-! ## Claim C3: format of every generated code -/

/-- The cipher output feeding the code assembly of one (campaign, index)
pair: AES of the padded sequence block under the campaign key. -/
def codeCipher (campaignID : Int) (couponIndex : Nat) : List Nat :=
  aesEncrypt (generateCampaignKey campaignID)
    (List.replicate 8 0 ++ beBytes8 (createUniqueSequence campaignID couponIndex))

theorem generateSecureCoupon_eq (campaignID : Int) (couponIndex : Nat) :
    generateSecureCoupon campaignID couponIndex =
      digits.getD ((codeCipher campaignID couponIndex).getD 0 0 % 10) '0' ::
        hanguls.getD ((codeCipher campaignID couponIndex).getD 1 0 % hanguls.length) '0' ::
        base38Body (beUint64 ((codeCipher campaignID couponIndex).drop 8)) 8 := rfl

theorem digit_getD_mem (n : Nat) (d : Char) : digits.getD (n % 10) d ∈ digits :=
  getD_mem _ _ _ (Nat.mod_lt _ (by decide))

theorem hangul_getD_mem (n : Nat) (d : Char) :
    hanguls.getD (n % hanguls.length) d ∈ hanguls :=
  getD_mem _ _ _ (Nat.mod_lt _ (by decide))

theorem mem_pool_of_digit {ch : Char} (h : ch ∈ digits) : ch ∈ pool := by
  unfold pool
  exact List.mem_append_left _ h

theorem mem_pool_of_hangul {ch : Char} (h : ch ∈ hanguls) : ch ∈ pool := by
  unfold pool
  exact List.mem_append_right _ h

/-- C3: for every campaign identifier and index, the generated code is
exactly ten runes long: one rune from the 10-rune digit set, then one rune
from the 28-rune syllable set, then eight runes from the combined 38-rune
pool; no rune outside the two alphabets appears. -/
theorem generateSecureCoupon_format (campaignID : Int) (couponIndex : Nat) :
    ∃ d h body, generateSecureCoupon campaignID couponIndex = d :: h :: body ∧
      d ∈ digits ∧ h ∈ hanguls ∧ body.length = 8 ∧
      (∀ ch ∈ body, ch ∈ pool) ∧
      (generateSecureCoupon campaignID couponIndex).length = 10 ∧
      (∀ ch ∈ generateSecureCoupon campaignID couponIndex, ch ∈ pool) := by
  refine ⟨digits.getD ((codeCipher campaignID couponIndex).getD 0 0 % 10) '0',
    hanguls.getD ((codeCipher campaignID couponIndex).getD 1 0 % hanguls.length) '0',
    base38Body (beUint64 ((codeCipher campaignID couponIndex).drop 8)) 8,
    generateSecureCoupon_eq campaignID couponIndex, ?_, ?_, ?_, ?_, ?_, ?_⟩
  · exact digit_getD_mem _ _
  · exact hangul_getD_mem _ _
  · exact base38Body_length 8 _
  · exact base38Body_mem_pool 8 _
  · rw [generateSecureCoupon_eq campaignID couponIndex]
    simp [base38Body_length]
  · intro ch hch
    rw [generateSecureCoupon_eq campaignID couponIndex, List.mem_cons, List.mem_cons] at hch
    rcases hch with h | h | h
    · rw [h]
      exact mem_pool_of_digit (digit_getD_mem _ _)
    · rw [h]
      exact mem_pool_of_hangul (hangul_getD_mem _ _)
    · exact base38Body_mem_pool 8 _ ch h

/-! ## Claim C4: the generation algorithm -/

/-- C4: the generator builds a 16-byte block whose upper eight bytes are
zero and whose lower eight bytes are the big-endian form of
`(campaignSequence << 32) | index` in `uint64` arithmetic, encrypts it with
the keyed single-block permutation under the derived campaign key, takes
the leading digit as `D[out[0] mod 10]` and the leading syllable as
`S[out[1] mod 28]`, and derives the eight body runes from bytes 8..16 of
the output read as a big-endian unsigned 64-bit integer `v`, the rune at
body position `i` being `P[(v / 38 ^ (7 - i)) mod 38]` (repeated
mod-38/div-38 extraction from the least significant position). -/
theorem generateSecureCoupon_algorithm (campaignID : Int) (couponIndex : Nat) :
    generateSecureCoupon campaignID couponIndex =
      (let seqv := ((campaignIDToSequence campaignID <<< 32) % 2 ^ 64) |||
        (couponIndex % 2 ^ 64)
       let block := List.replicate 8 0 ++ beBytes8 seqv
       let out := aesEncrypt (generateCampaignKey campaignID) block
       let v := beUint64 (out.drop 8)
       digits.getD (out.getD 0 0 % 10) '0' ::
         hanguls.getD (out.getD 1 0 % 28) '0' ::
         (List.range 8).map (fun i => pool.getD ((v / 38 ^ (7 - i)) % 38) '0')) := by
  have hmap : base38Body (beUint64 ((codeCipher campaignID couponIndex).drop 8)) 8 =
      (List.range 8).map (fun i =>
        pool.getD ((beUint64 ((codeCipher campaignID couponIndex).drop 8) / 38 ^ (7 - i)) % 38) '0') := by
    have h := base38Body_eq_map 8 (beUint64 ((codeCipher campaignID couponIndex).drop 8))
    simpa using h
  rw [generateSecureCoupon_eq campaignID couponIndex, hmap]
  rfl

/-! ## Claim C5: the campaign-key derivation -/

theorem testBit_mod_256 (z j : Nat) :
    (z % 256).testBit j = (decide (j < 8) && z.testBit j) := by
  rw [show (256 : Nat) = 2 ^ 8 by norm_num, Nat.testBit_mod_two_pow]

theorem testBit_mod_32768 (z j : Nat) :
    (z % 32768).testBit j = (decide (j < 15) && z.testBit j) := by
  rw [show (32768 : Nat) = 2 ^ 15 by norm_num, Nat.testBit_mod_two_pow]

theorem xor_small_mod (x t : Nat) (ht : t < 256) :
    (x ^^^ t) % 256 = (x % 256) ^^^ t := by
  apply Nat.eq_of_testBit_eq
  intro j
  simp only [testBit_mod_256, Nat.testBit_xor]
  by_cases hj : j < 8
  · simp [hj]
  · have htj : t.testBit j = false :=
      Nat.testBit_lt_two_pow
        (lt_of_lt_of_le ht
          (le_trans (by norm_num : (256 : Nat) ≤ 2 ^ 8)
            (Nat.pow_le_pow_right (by norm_num) (by omega))))
    simp [hj, htj]

theorem shiftRight_mod_256_eq (h₁ h₂ s : Nat) (hs : s ≤ 7)
    (H : h₁ % 32768 = h₂ % 32768) : (h₁ >>> s) % 256 = (h₂ >>> s) % 256 := by
  apply Nat.eq_of_testBit_eq
  intro j
  simp only [testBit_mod_256, Nat.testBit_shiftRight]
  by_cases hj : j < 8
  · have ht : h₁.testBit (s + j) = h₂.testBit (s + j) := by
      have hc := congrArg (fun z => z.testBit (s + j)) H
      simp only [testBit_mod_32768] at hc
      have hsj : s + j < 15 := by omega
      simpa [hsj] using hc
    rw [ht]
  · simp [hj]

theorem keyByte_depends_on_low15 (h₁ h₂ i : Nat) (hi : i < 16)
    (H : h₁ % 32768 = h₂ % 32768) : keyByte h₁ i = keyByte h₂ i := by
  unfold keyByte
  have ht : i * 7 < 256 := by omega
  rw [xor_small_mod _ _ ht, xor_small_mod _ _ ht,
    shiftRight_mod_256_eq h₁ h₂ (i % 8) (by omega) H]

theorem low15_of_keyBytes_eq (h₁ h₂ : Nat)
    (H0 : keyByte h₁ 0 = keyByte h₂ 0) (H7 : keyByte h₁ 7 = keyByte h₂ 7) :
    h₁ % 32768 = h₂ % 32768 := by
  have e0 : ∀ h : Nat, keyByte h 0 = h % 256 := by
    intro h
    simp [keyByte]
  have e7 : ∀ h : Nat, keyByte h 7 = ((h >>> 7) % 256) ^^^ 49 := by
    intro h
    unfold keyByte
    norm_num
    rw [xor_small_mod _ 49 (by norm_num)]
  rw [e0, e0] at H0
  rw [e7, e7] at H7
  have H7x : (h₁ >>> 7) % 256 = (h₂ >>> 7) % 256 := by
    have hc := congrArg (fun z => z ^^^ 49) H7
    simpa [Nat.xor_cancel_right] using hc
  apply Nat.eq_of_testBit_eq
  intro j
  simp only [testBit_mod_32768]
  by_cases hj : j < 15
  · by_cases hj8 : j < 8
    · have hc := congrArg (fun z => z.testBit j) H0
      simp only [testBit_mod_256] at hc
      simp [hj8] at hc
      simp [hj, hc]
    · have hc := congrArg (fun z => z.testBit (j - 7)) H7x
      simp only [testBit_mod_256, Nat.testBit_shiftRight] at hc
      have hj7 : j - 7 < 8 := by omega
      have h77 : 7 + (j - 7) = j := by omega
      rw [h77] at hc
      simp [hj7] at hc
      simp [hj, hc]
  · simp [hj]

/-- C5 is false as stated: campaign identifiers 0 and 32768 are distinct
but derive identical 16-byte campaign keys, because every key byte uses a
shift amount `i % 8 ≤ 7` followed by truncation to one byte. -/
theorem generateCampaignKey_not_injective :
    ¬ (∀ c₁ c₂ : Int, c₁ ≠ c₂ → generateCampaignKey c₁ ≠ generateCampaignKey c₂) := by
  intro h
  exact h 0 32768 (by decide) (by decide)

/-- C5 amended: the campaign-key derivation is deterministic but not
injective; two campaign identifiers derive the same key exactly when their
`uint64` reinterpretations agree on the low 15 bits. -/
theorem generateCampaignKey_eq_iff (c₁ c₂ : Int) :
    generateCampaignKey c₁ = generateCampaignKey c₂ ↔
      campaignIDToSequence c₁ % 32768 = campaignIDToSequence c₂ % 32768 := by
  unfold generateCampaignKey
  rw [List.ofFn_inj, funext_iff]
  constructor
  · intro H
    exact low15_of_keyBytes_eq _ _ (H ⟨0, by norm_num⟩) (H ⟨7, by norm_num⟩)
  · intro H i
    exact keyByte_depends_on_low15 _ _ _ i.isLt H

/-! ## Issuance lemmas -/

theorem markIssuedRow_code (code : List Char) (now : Nat) (c : Coupon) :
    (markIssuedRow code now c).code = c.code := by
  unfold markIssuedRow
  split <;> rfl

theorem isAvailFor_markIssuedRow (cid : Int) (code : List Char) (now : Nat) (c : Coupon) :
    isAvailFor cid (markIssuedRow code now c) = (isAvailFor cid c && !(c.code == code)) := by
  unfold markIssuedRow isAvailFor
  by_cases h1 : c.code == code
  · by_cases h2 : c.status == CStatus.available
    · simp [h1, h2]
    · simp [h1, h2]
  · simp [h1]

theorem markIssuedRow_eq_self (code : List Char) (now : Nat) (c : Coupon)
    (h : (c.code == code && c.status == CStatus.available) = false) :
    markIssuedRow code now c = c := by
  unfold markIssuedRow
  simp [h]

theorem codes_after_mark (code : List Char) (now : Nat) (l : List Coupon) :
    (l.map (markIssuedRow code now)).map (fun c => c.code) = l.map (fun c => c.code) := by
  rw [List.map_map]
  exact List.map_congr_left (fun c _ => markIssuedRow_code code now c)

theorem map_eq_self_of (f : α → α) :
    ∀ l : List α, (∀ a ∈ l, f a = a) → l.map f = l := by
  intro l h
  induction l with
  | nil => rfl
  | cons a as ih =>
      simp only [List.map_cons]
      rw [h a (by simp), ih (fun x hx => h x (by simp [hx]))]

theorem availRows_after_mark (db : DBState) (cid : Int) (code : List Char) (now : Nat) :
    availRows { db with coupons := db.coupons.map (markIssuedRow code now) } cid =
      db.coupons.filter (fun c => isAvailFor cid c && !(c.code == code)) := by
  show (db.coupons.map (markIssuedRow code now)).filter (isAvailFor cid) = _
  rw [List.filter_map]
  have hp : db.coupons.filter (isAvailFor cid ∘ markIssuedRow code now) =
      db.coupons.filter (fun c => isAvailFor cid c && !(c.code == code)) := by
    apply List.filter_congr
    intro c _
    simp [Function.comp, isAvailFor_markIssuedRow]
  rw [hp]
  apply map_eq_self_of
  intro c hc
  have hcc := (List.mem_filter.mp hc).2
  have hne : (c.code == code) = false := by
    rcases Bool.and_eq_true_iff.mp hcc with ⟨_, hq⟩
    simpa using hq
  exact markIssuedRow_eq_self code now c (by simp [hne])

theorem map_filter_and_code (l : List Coupon) (p : Coupon → Bool) (q : List Char → Bool) :
    (l.filter (fun c => p c && q c.code)).map (fun c => c.code) =
      ((l.filter p).map (fun c => c.code)).filter q := by
  induction l with
  | nil => rfl
  | cons c cs ih =>
      by_cases hp : p c
      · by_cases hq : q c.code
        · simp [List.filter_cons, hp, hq, ih]
        · simp [List.filter_cons, hp, hq, ih]
      · simp [List.filter_cons, hp, ih]

theorem reserve_eq_none_iff (db : DBState) (cid : Int) :
    reserveAvailableCoupon db cid = none ↔ availRows db cid = [] := by
  unfold reserveAvailableCoupon
  constructor
  · intro h
    rcases hs : List.insertionSort createdLe (availRows db cid) with _ | ⟨a, t⟩
    · have hperm := List.perm_insertionSort createdLe (availRows db cid)
      rw [hs] at hperm
      exact hperm.symm.eq_nil
    · rw [hs] at h
      simp at h
  · intro h
    rw [h]
    rfl

theorem reserve_some_spec (db : DBState) (cid : Int) (code : List Char)
    (h : reserveAvailableCoupon db cid = some code) :
    ∃ c ∈ availRows db cid, c.code = code := by
  unfold reserveAvailableCoupon at h
  rcases hs : List.insertionSort createdLe (availRows db cid) with _ | ⟨a, t⟩
  · rw [hs] at h
    simp at h
  · rw [hs] at h
    simp at h
    refine ⟨a, ?_, h⟩
    have : a ∈ List.insertionSort createdLe (availRows db cid) := by
      rw [hs]
      exact List.mem_cons_self a t
    exact (List.mem_insertionSort createdLe).mp this

theorem mark_of_avail (db : DBState) (code : List Char) (now : Nat)
    (h : ∃ c ∈ db.coupons, (c.code == code && c.status == CStatus.available) = true) :
    markCouponAsIssued db code now =
      some { db with coupons := db.coupons.map (markIssuedRow code now) } := by
  unfold markCouponAsIssued
  have hpos : 0 < db.coupons.countP (fun c => c.code == code && c.status == CStatus.available) :=
    List.countP_pos_iff.mpr h
  rw [if_neg (by omega)]

/-- Success shape of one issuance step: the campaign exists and has
started and some Available row remains, so the call succeeds with a code
from the Available pool, leaves campaigns and the code column unchanged,
and removes exactly that code from the Available pool. -/
theorem issue_step_success (db : DBState) (cid : Int) (now : Nat) (camp : Campaign)
    (hc : getCampaignRow db cid = some camp) (hs : ¬ now < camp.startDate)
    (hne : availRows db cid ≠ []) :
    ∃ code db₂, IssueCoupon db cid now = (.ok code, db₂) ∧
      code ∈ availableCodes db cid ∧
      db₂.campaigns = db.campaigns ∧
      db₂.coupons.map (fun c => c.code) = db.coupons.map (fun c => c.code) ∧
      availableCodes db₂ cid = (availableCodes db cid).filter (fun x => !(x == code)) := by
  have hres : ∃ code, reserveAvailableCoupon db cid = some code := by
    rcases hr : reserveAvailableCoupon db cid with _ | code
    · exact absurd ((reserve_eq_none_iff db cid).mp hr) hne
    · exact ⟨code, rfl⟩
  obtain ⟨code, hr⟩ := hres
  obtain ⟨c, hcmem, hccode⟩ := reserve_some_spec db cid code hr
  have hcavail : (c.code == code && c.status == CStatus.available) = true := by
    have hpred := (List.mem_filter.mp hcmem).2
    unfold isAvailFor at hpred
    have hstat := (Bool.and_eq_true_iff.mp hpred).2
    simp [hccode, hstat]
  have hmark := mark_of_avail db code now ⟨c, (List.mem_filter.mp hcmem).1, hcavail⟩
  refine ⟨code, { db with coupons := db.coupons.map (markIssuedRow code now) }, ?_, ?_, rfl, ?_, ?_⟩
  · unfold IssueCoupon
    rw [hc]
    simp [hr, hmark, hs]
  · exact List.mem_map.mpr ⟨c, hcmem, hccode⟩
  · exact codes_after_mark code now db.coupons
  · show ((availRows _ cid).map (fun c => c.code)) = _
    rw [availRows_after_mark]
    exact map_filter_and_code db.coupons (isAvailFor cid) (fun x => !(x == code))

/-- Exhaustion shape of one issuance step. -/
theorem issue_step_exhausted (db : DBState) (cid : Int) (now : Nat) (camp : Campaign)
    (hc : getCampaignRow db cid = some camp) (hs : ¬ now < camp.startDate)
    (hemp : availRows db cid = []) :
    IssueCoupon db cid now = (.error .exhausted, db) := by
  unfold IssueCoupon
  rw [hc]
  simp [hs, (reserve_eq_none_iff db cid).mpr hemp]

theorem availableCodes_nodup (db : DBState) (cid : Int)
    (hnd : (db.coupons.map (fun c => c.code)).Nodup) : (availableCodes db cid).Nodup := by
  show ((db.coupons.filter (isAvailFor cid)).map (fun c => c.code)).Nodup
  exact List.Nodup.sublist
    (List.Sublist.map (fun c => c.code) (List.filter_sublist db.coupons)) hnd

theorem length_filter_ne (A : List (List Char)) (x : List Char)
    (hnd : A.Nodup) (hm : x ∈ A) :
    (A.filter (fun y => !(y == x))).length + 1 = A.length := by
  induction A with
  | nil => cases hm
  | cons a as ih =>
      rcases List.nodup_cons.mp hnd with ⟨hna, hnd₂⟩
      by_cases hxa : a = x
      · subst hxa
        have hall : as.filter (fun y => !(y == a)) = as := by
          rw [List.filter_eq_self]
          intro y hy
          have hne : ¬ y = a := fun h => hna (h ▸ hy)
          simp [hne]
        simp [List.filter_cons, hall]
      · have hax : (a == x) = false := by simp [hxa]
        have hm₂ : x ∈ as := by
          rcases List.mem_cons.mp hm with h | h
          · exact absurd h.symm hxa
          · exact h
        have hih := ih hnd₂ hm₂
        simp [List.filter_cons, hax]
        omega

/-! ## Claim C1: no oversell under a burst of issuance calls

Each `IssueCoupon` call is one storage transaction; the row lock taken by
`SELECT ... FOR UPDATE SKIP LOCKED` and the atomic commit serialize
contending transactions, so a burst of N concurrent calls is modelled as
the N atomic steps in an arbitrary serialization order (`issueRun`). -/

/-- C1: starting from any state whose campaign exists, whose start date
has passed at every call time, and whose coupon codes are unique (the
`code` column is the primary key), a burst of N calls has exactly
`min N K` successes where K is the number of Available coupons at the
start, the successful codes are pairwise distinct and all drawn from the
initial Available pool, and every unsuccessful call fails with the
exhaustion error. -/
theorem no_oversell (cid : Int) (camp : Campaign) (nows : List Nat) : ∀ db : DBState,
    getCampaignRow db cid = some camp →
    (∀ t ∈ nows, ¬ t < camp.startDate) →
    (db.coupons.map (fun c => c.code)).Nodup →
    (successes (issueRun db cid nows).1).length
        = min nows.length (availableCodes db cid).length ∧
      (successes (issueRun db cid nows).1).Nodup ∧
      (∀ co ∈ successes (issueRun db cid nows).1, co ∈ availableCodes db cid) ∧
      (∀ r ∈ (issueRun db cid nows).1,
        (∃ co, r = Except.ok co) ∨ r = Except.error SvcErr.exhausted) ∧
      (issueRun db cid nows).1.length = nows.length := by
  induction nows with
  | nil =>
      intro db hc ht hnd
      simp [issueRun, successes]
  | cons t ts ih =>
      intro db hc ht hnd
      by_cases hemp : availRows db cid = []
      · have hstep := issue_step_exhausted db cid t camp hc (ht t (List.mem_cons_self t ts)) hemp
        have hA : availableCodes db cid = [] := by
          unfold availableCodes
          rw [hemp]
          rfl
        obtain ⟨h1, h2, h3, h4, h5⟩ := ih db hc (fun x hx => ht x (List.mem_cons_of_mem t hx)) hnd
        have hfst : (issueRun db cid (t :: ts)).1 =
            Except.error SvcErr.exhausted :: (issueRun db cid ts).1 := by
          simp [issueRun, hstep]
        have hsuc : successes ((issueRun db cid (t :: ts)).1) =
            successes ((issueRun db cid ts).1) := by
          rw [hfst]
          simp [successes]
        refine ⟨?_, ?_, ?_, ?_, ?_⟩
        · rw [hsuc, h1, hA]
          simp
        · rw [hsuc]
          exact h2
        · rw [hsuc]
          exact h3
        · rw [hfst]
          intro r hr
          rcases List.mem_cons.mp hr with rfl | hr₂
          · exact Or.inr rfl
          · exact h4 r hr₂
        · rw [hfst]
          simp [h5]
      · obtain ⟨code, db₂, hstep, hmem, hcamps, hcodes, hA2⟩ :=
          issue_step_success db cid t camp hc (ht t (List.mem_cons_self t ts)) hemp
        have hc₂ : getCampaignRow db₂ cid = some camp := by
          unfold getCampaignRow at hc ⊢
          rw [hcamps]
          exact hc
        have hnd₂ : (db₂.coupons.map (fun c => c.code)).Nodup := by
          rw [hcodes]
          exact hnd
        obtain ⟨h1, h2, h3, h4, h5⟩ :=
          ih db₂ hc₂ (fun x hx => ht x (List.mem_cons_of_mem t hx)) hnd₂
        have hAnd : (availableCodes db cid).Nodup := availableCodes_nodup db cid hnd
        have hlen2 : ((availableCodes db cid).filter (fun x => !(x == code))).length + 1
            = (availableCodes db cid).length := length_filter_ne _ _ hAnd hmem
        have hfst : (issueRun db cid (t :: ts)).1 =
            Except.ok code :: (issueRun db₂ cid ts).1 := by
          simp [issueRun, hstep]
        have hsuc : successes ((issueRun db cid (t :: ts)).1) =
            code :: successes ((issueRun db₂ cid ts).1) := by
          rw [hfst]
          simp [successes]
        have hpos : 0 < (availableCodes db cid).length :=
          List.length_pos.mpr (fun h0 => by rw [h0] at hmem; cases hmem)
        refine ⟨?_, ?_, ?_, ?_, ?_⟩
        · rw [hsuc, List.length_cons, h1, hA2, List.length_cons]
          omega
        · rw [hsuc]
          refine List.nodup_cons.mpr ⟨?_, h2⟩
          intro hmem₂
          have hin := h3 code hmem₂
          rw [hA2] at hin
          have := (List.mem_filter.mp hin).2
          simp at this
        · rw [hsuc]
          intro co hco
          rcases List.mem_cons.mp hco with rfl | hco₂
          · exact hmem
          · have hin := h3 co hco₂
            rw [hA2] at hin
            exact (List.mem_filter.mp hin).1
        · rw [hfst]
          intro r hr
          rcases List.mem_cons.mp hr with rfl | hr₂
          · exact Or.inl ⟨code, rfl⟩
          · exact h4 r hr₂
        · rw [hfst]
          simp [h5]

/-! ## Claim C6: precondition checks of issueCoupon -/

/-- C6: issueCoupon fails with the not-found error when no campaign row
has the requested id; with the precondition error, touching nothing, when
the campaign exists but the call time is before its start date; and with
the exhaustion error, touching nothing, when the campaign exists and has
started but no Available coupon row of the campaign exists.  The three
checks are tested in this order, before any coupon is marked issued. -/
theorem issueCoupon_checks (db : DBState) (cid : Int) (now : Nat) :
    ((∀ camp ∈ db.campaigns, camp.id ≠ cid) →
        IssueCoupon db cid now = (.error .notFound, db)) ∧
    (∀ camp, getCampaignRow db cid = some camp → now < camp.startDate →
        IssueCoupon db cid now = (.error .precondition, db)) ∧
    (∀ camp, getCampaignRow db cid = some camp → ¬ now < camp.startDate →
        (∀ c ∈ db.coupons, c.campaignID = cid → c.status ≠ CStatus.available) →
        IssueCoupon db cid now = (.error .exhausted, db)) := by
  refine ⟨?_, ?_, ?_⟩
  · intro h
    have hnone : getCampaignRow db cid = none := by
      unfold getCampaignRow
      rw [List.find?_eq_none]
      intro c hc
      simp [h c hc]
    unfold IssueCoupon
    rw [hnone]
  · intro camp hc hlt
    unfold IssueCoupon
    rw [hc]
    simp [hlt]
  · intro camp hc hge hnone
    apply issue_step_exhausted db cid now camp hc hge
    unfold availRows
    rw [List.filter_eq_nil_iff]
    intro c hcmem hcontra
    unfold isAvailFor at hcontra
    rcases Bool.and_eq_true_iff.mp hcontra with ⟨h1, h2⟩
    exact hnone c hcmem (by simpa using h1) (by simpa using h2)

/-! ## Creation lemmas -/

theorem chunksOfFuel_flatten (f : Nat) : ∀ l : List α, l.length ≤ f →
    (chunksOfFuel f l).flatten = l := by
  induction f with
  | zero =>
      intro l hl
      cases l with
      | nil => rfl
      | cons x xs => simp at hl
  | succ f ih =>
      intro l hl
      cases l with
      | nil => rfl
      | cons x xs =>
          show (((x :: xs).take 1000) :: chunksOfFuel f ((x :: xs).drop 1000)).flatten = x :: xs
          rw [List.flatten_cons,
            ih _ (by simp only [List.length_drop, List.length_cons] at hl ⊢; omega)]
          exact List.take_append_drop 1000 (x :: xs)

theorem chunksOf_flatten (l : List α) : (chunksOf l).flatten = l :=
  chunksOfFuel_flatten l.length l (Nat.le_refl _)

theorem insertChunksGo_spec (cid : Int) (t₂ t₃ : Nat) (fail : CreateFail) :
    ∀ (bs : List (List (List Char))) (tx : DBState) (j : Nat),
      insertChunksGo cid t₂ t₃ fail tx bs j = none ∨
      insertChunksGo cid t₂ t₃ fail tx bs j =
        some { tx with coupons := tx.coupons ++ bs.flatten.map (mkCouponRow cid t₂ t₃) } := by
  intro bs
  induction bs with
  | nil =>
      intro tx j
      right
      simp [insertChunksGo]
  | cons b bs ih =>
      intro tx j
      by_cases hf : fail = .atChunk j
      · left
        simp [insertChunksGo, hf]
      · rcases ih (insertCouponBatch tx cid b t₂ t₃) (j + 1) with h | h
        · left
          simp [insertChunksGo, hf, h]
        · right
          have hstep : insertChunksGo cid t₂ t₃ fail tx (b :: bs) j =
              insertChunksGo cid t₂ t₃ fail (insertCouponBatch tx cid b t₂ t₃) bs (j + 1) := by
            simp [insertChunksGo, hf]
          rw [hstep, h]
          simp [insertCouponBatch, List.map_append, List.append_assoc]

theorem insertChunksGo_noFail (cid : Int) (t₂ t₃ : Nat) :
    ∀ (bs : List (List (List Char))) (tx : DBState) (j : Nat),
      insertChunksGo cid t₂ t₃ .noFail tx bs j =
        some { tx with coupons := tx.coupons ++ bs.flatten.map (mkCouponRow cid t₂ t₃) } := by
  intro bs
  induction bs with
  | nil =>
      intro tx j
      simp [insertChunksGo]
  | cons b bs ih =>
      intro tx j
      have hf : CreateFail.noFail ≠ CreateFail.atChunk j := by simp
      have hstep : insertChunksGo cid t₂ t₃ .noFail tx (b :: bs) j =
          insertChunksGo cid t₂ t₃ .noFail (insertCouponBatch tx cid b t₂ t₃) bs (j + 1) := by
        simp [insertChunksGo, hf]
      rw [hstep, ih]
      simp [insertCouponBatch, List.map_append, List.append_assoc]

theorem createPregen_spec (tx : DBState) (cid : Int) (codes : List (List Char))
    (t₂ t₃ : Nat) (fail : CreateFail) :
    createPregeneratedCoupons tx cid codes t₂ t₃ fail = none ∨
    createPregeneratedCoupons tx cid codes t₂ t₃ fail =
      some { tx with coupons := tx.coupons ++ codes.map (mkCouponRow cid t₂ t₃) } := by
  unfold createPregeneratedCoupons
  rcases insertChunksGo_spec cid t₂ t₃ fail (chunksOf codes) tx 0 with h | h
  · left
    exact h
  · right
    rw [chunksOf_flatten] at h
    exact h

theorem createPregen_noFail (tx : DBState) (cid : Int) (codes : List (List Char))
    (t₂ t₃ : Nat) :
    createPregeneratedCoupons tx cid codes t₂ t₃ .noFail =
      some { tx with coupons := tx.coupons ++ codes.map (mkCouponRow cid t₂ t₃) } := by
  unfold createPregeneratedCoupons
  have h := insertChunksGo_noFail cid t₂ t₃ (chunksOf codes) tx 0
  rw [chunksOf_flatten] at h
  exact h

/-- Dichotomy of one creation call: either some step failed and the
visible state is the original, or the call succeeded and exactly the
campaign row and the full generated coupon pool were added. -/
theorem createCampaignTx_cases (db : DBState) (n : Int) (sd t₁ t₂ t₃ : Nat)
    (fail : CreateFail) :
    ((∃ e, (createCampaignTx db n sd t₁ t₂ t₃ fail).1 = .error e) ∧
      (createCampaignTx db n sd t₁ t₂ t₃ fail).2 = db) ∨
    (∃ camp : Campaign,
      (createCampaignTx db n sd t₁ t₂ t₃ fail).1 = .ok camp ∧
      camp = campRow db n sd t₁ ∧
      (createCampaignTx db n sd t₁ t₂ t₃ fail).2.campaigns = db.campaigns ++ [camp] ∧
      (createCampaignTx db n sd t₁ t₂ t₃ fail).2.coupons = db.coupons ++
        ((List.range n.toNat).map (generateSecureCoupon db.nextCampaignId)).map
          (mkCouponRow db.nextCampaignId t₂ t₃) ∧
      (createCampaignTx db n sd t₁ t₂ t₃ fail).2.nextCampaignId = db.nextCampaignId + 1) := by
  unfold createCampaignTx
  by_cases h1 : fail = .atBegin
  · left
    exact ⟨⟨.internal, by simp [h1]⟩, by simp [h1]⟩
  · by_cases h2 : fail = .atInsertCampaign
    · left
      exact ⟨⟨.internal, by simp [h1, h2]⟩, by simp [h1, h2]⟩
    · by_cases hneg : n < 0
      · left
        exact ⟨⟨.panicked, by simp [h1, h2, hneg]⟩, by simp [h1, h2, hneg]⟩
      · by_cases h3 : genFails n.toNat fail
        · left
          exact ⟨⟨.internal, by simp [h1, h2, hneg, genCodes, h3]⟩,
            by simp [h1, h2, hneg, genCodes, h3]⟩
        · rcases createPregen_spec (txAfterCampaignInsert db n sd t₁) db.nextCampaignId
            ((List.range n.toNat).map (generateSecureCoupon db.nextCampaignId)) t₂ t₃ fail
            with hp | hp
          · left
            exact ⟨⟨.internal, by simp [h1, h2, hneg, genCodes, h3, hp]⟩,
              by simp [h1, h2, hneg, genCodes, h3, hp]⟩
          · by_cases h4 : fail = .atCommit
            · subst h4
              left
              exact ⟨⟨.internal, by simp [hneg, genCodes, genFails, hp]⟩,
                by simp [hneg, genCodes, genFails, hp]⟩
            · right
              simp only [txAfterCampaignInsert, campRow] at hp
              refine ⟨campRow db n sd t₁, ?_, rfl, ?_, ?_, ?_⟩ <;>
                simp [h1, h2, hneg, genCodes, h3, hp, h4, txAfterCampaignInsert, campRow]

/-! ## Claim C7: atomicity of campaign creation -/

/-- C7: a creation call is atomic: on any failing step (begin, campaign
insert, any code generation, any coupon chunk insert, or commit) the
visible state is exactly the original — no campaign row and no coupon rows
of the attempt survive, and no chunk is independently visible; only a
fully successful call adds the campaign row together with all
`availableCoupons.toNat` coupon rows of that campaign. -/
theorem createCampaign_atomic (db : DBState) (n : Int) (sd t₁ t₂ t₃ : Nat)
    (fail : CreateFail) :
    ((∃ e, (createCampaignTx db n sd t₁ t₂ t₃ fail).1 = .error e) ∧
      (createCampaignTx db n sd t₁ t₂ t₃ fail).2 = db) ∨
    (∃ camp : Campaign,
      (createCampaignTx db n sd t₁ t₂ t₃ fail).1 = .ok camp ∧
      camp.availableCoupons = n ∧
      (createCampaignTx db n sd t₁ t₂ t₃ fail).2.campaigns = db.campaigns ++ [camp] ∧
      ∃ rows : List Coupon,
        (createCampaignTx db n sd t₁ t₂ t₃ fail).2.coupons = db.coupons ++ rows ∧
        rows.length = n.toNat ∧
        ∀ r ∈ rows, r.campaignID = camp.id ∧ r.status = .available) := by
  rcases createCampaignTx_cases db n sd t₁ t₂ t₃ fail with ⟨he, hst⟩ | ⟨camp, hok, hcamp, hcs, hco, _⟩
  · left
    exact ⟨he, hst⟩
  · right
    refine ⟨camp, hok, by rw [hcamp]; rfl, hcs, ?_⟩
    refine ⟨((List.range n.toNat).map (generateSecureCoupon db.nextCampaignId)).map
      (mkCouponRow db.nextCampaignId t₂ t₃), hco, ?_, ?_⟩
    · simp
    · intro r hr
      obtain ⟨code, _, rfl⟩ := List.mem_map.mp hr
      exact ⟨by rw [hcamp]; rfl, rfl⟩

/-! ## Claim C9: non-positive availableCoupons -/

/-- C9 is false as stated: a creation request with a negative
availableCoupons does not succeed — `make([]string, 0, int(n))` panics on
the negative capacity before any code is generated, and the deferred
rollback discards the campaign insert.  At `n = -2` the call returns the
panic outcome with the state untouched, not the claimed success. -/
theorem createCampaign_nonpositive_cex :
    ¬ (∀ (db : DBState) (n : Int) (sd t₁ t₂ t₃ : Nat), n ≤ 0 →
        createCampaignTx db n sd t₁ t₂ t₃ .noFail =
          (.ok { id := db.nextCampaignId, availableCoupons := n, startDate := sd,
                 createdAt := t₁, updatedAt := t₁ },
           { campaigns := db.campaigns ++
               [{ id := db.nextCampaignId, availableCoupons := n, startDate := sd,
                  createdAt := t₁, updatedAt := t₁ }],
             coupons := db.coupons,
             nextCampaignId := db.nextCampaignId + 1 })) := by
  intro h
  have hc := h dbInit (-2) 7 1 2 3 (by decide)
  exact absurd hc (by decide)

/-- C9 amended: there is no ValidationError in the code, but only the
boundary value zero succeeds: a request with `availableCoupons = 0` (and
no environmental failure) commits a campaign row storing zero and inserts
no coupon rows, the generation loop running zero times; a request with
`availableCoupons < 0` panics at the negative slice capacity and the
rolled-back transaction leaves the state untouched. -/
theorem createCampaign_nonpositive_amended (db : DBState) (sd t₁ t₂ t₃ : Nat) (n : Int) :
    (n = 0 → createCampaignTx db n sd t₁ t₂ t₃ .noFail =
      (.ok { id := db.nextCampaignId, availableCoupons := n, startDate := sd,
             createdAt := t₁, updatedAt := t₁ },
       { campaigns := db.campaigns ++
           [{ id := db.nextCampaignId, availableCoupons := n, startDate := sd,
              createdAt := t₁, updatedAt := t₁ }],
         coupons := db.coupons,
         nextCampaignId := db.nextCampaignId + 1 })) ∧
    (n < 0 → createCampaignTx db n sd t₁ t₂ t₃ .noFail = (.error .panicked, db)) := by
  constructor
  · intro hz
    subst hz
    unfold createCampaignTx
    simp [genCodes, genFails, createPregen_noFail, campRow, txAfterCampaignInsert,
      Int.toNat_zero]
  · intro hneg
    unfold createCampaignTx
    simp [hneg]

/-! ## Claim C10: one shared createdAt per creation call -/

/-- C10: all coupon rows staged by one `CreatePregeneratedCoupons` call
carry the single `created_at` timestamp captured once at the start of the
call, across all chunks — so the oldest-first reservation order never
distinguishes coupons of the same campaign. -/
theorem pregenerated_single_createdAt (tx : DBState) (cid : Int)
    (codes : List (List Char)) (tCoupons issuedDefault : Nat) (fail : CreateFail)
    (tx₂ : DBState)
    (h : createPregeneratedCoupons tx cid codes tCoupons issuedDefault fail = some tx₂) :
    ∃ newRows : List Coupon, tx₂.coupons = tx.coupons ++ newRows ∧
      ∀ c ∈ newRows, c.createdAt = tCoupons := by
  rcases createPregen_spec tx cid codes tCoupons issuedDefault fail with hp | hp
  · rw [hp] at h
    cases h
  · rw [hp] at h
    injection h with h
    refine ⟨codes.map (mkCouponRow cid tCoupons issuedDefault), ?_, ?_⟩
    · rw [← h]
    · intro c hc
      obtain ⟨code, _, rfl⟩ := List.mem_map.mp hc
      rfl

/-! ## Claim C2: issuedAt versus status -/

theorem mark_some_shape (db : DBState) (code : List Char) (now : Nat) (db₂ : DBState)
    (h : markCouponAsIssued db code now = some db₂) :
    db₂ = { db with coupons := db.coupons.map (markIssuedRow code now) } := by
  unfold markCouponAsIssued at h
  split at h
  · cases h
  · injection h with h
    exact h.symm

theorem issue_state_cases (db : DBState) (cid : Int) (now : Nat) :
    (IssueCoupon db cid now).2 = db ∨
    ∃ code, (IssueCoupon db cid now).2 =
      { db with coupons := db.coupons.map (markIssuedRow code now) } := by
  unfold IssueCoupon
  cases hc : getCampaignRow db cid with
  | none => left; rfl
  | some camp =>
      by_cases hlt : now < camp.startDate
      · left
        simp [hlt]
      · cases hr : reserveAvailableCoupon db cid with
        | none =>
            left
            simp [hlt, hr]
        | some code =>
            cases hm : markCouponAsIssued db code now with
            | none =>
                left
                simp [hlt, hr, hm]
            | some db₂ =>
                right
                refine ⟨code, ?_⟩
                have hsh := mark_some_shape db code now db₂ hm
                simp [hlt, hr, hm, hsh]

/-- C2 amended: in every reachable database state every coupon row has its
issuedAt set — creation already stores the schema default `NOW()` for the
omitted `issued_at` column, and issuance overwrites it with the issue
time. -/
theorem coupon_issuedAt_always_set : ∀ db : DBState, Reach db →
    ∀ c ∈ db.coupons, c.issuedAt.isSome = true := by
  intro db h
  induction h with
  | init => intro c hc; cases hc
  | create db n sd t₁ t₂ t₃ fail hr ih =>
      intro c hc
      rcases createCampaignTx_cases db n sd t₁ t₂ t₃ fail with ⟨_, h2⟩ | ⟨camp, _, _, _, h2, _⟩
      · rw [h2] at hc
        exact ih c hc
      · rw [h2] at hc
        rcases List.mem_append.mp hc with hcl | hcr
        · exact ih c hcl
        · obtain ⟨code, _, rfl⟩ := List.mem_map.mp hcr
          rfl
  | issue db cid now hr ih =>
      intro c hc
      rcases issue_state_cases db cid now with h2 | ⟨code, h2⟩
      · rw [h2] at hc
        exact ih c hc
      · rw [h2] at hc
        obtain ⟨c₀, hc₀, rfl⟩ := List.mem_map.mp hc
        unfold markIssuedRow
        split
        · rfl
        · exact ih c₀ hc₀

theorem createCampaignTx_noFail_ok (db : DBState) (n : Int) (sd t₁ t₂ t₃ : Nat)
    (hn : ¬ n < 0) :
    (createCampaignTx db n sd t₁ t₂ t₃ .noFail).1 = .ok (campRow db n sd t₁) := by
  unfold createCampaignTx
  simp [hn, genCodes, genFails, createPregen_noFail]

/-- C2 is false as stated: the schema default `issued_at ... DEFAULT NOW()`
fires for the omitted column on insert, so the single Available coupon of a
freshly created one-coupon campaign already carries an issuedAt value while
its status is still Available. -/
theorem issuedAt_iff_issued_cex :
    ¬ (∀ db : DBState, Reach db →
        ∀ c ∈ db.coupons, (c.issuedAt.isSome = true ↔ c.status = .issued)) := by
  intro h
  have hreach : Reach ((createCampaignTx dbInit 1 0 0 0 5 .noFail).2) :=
    Reach.create dbInit 1 0 0 0 5 .noFail Reach.init
  have hco : ((createCampaignTx dbInit 1 0 0 0 5 .noFail).2).coupons =
      [mkCouponRow 1 0 5 (generateSecureCoupon 1 0)] := by
    rcases createCampaignTx_cases dbInit 1 0 0 0 5 .noFail
      with ⟨⟨e, he⟩, _⟩ | ⟨camp, _, _, _, h2, _⟩
    · rw [createCampaignTx_noFail_ok dbInit 1 0 0 0 5 (by decide)] at he
      cases he
    · rw [h2]
      rfl
  have hiff := h _ hreach (mkCouponRow 1 0 5 (generateSecureCoupon 1 0))
    (by rw [hco]; exact List.mem_cons_self _ _)
  have : CStatus.available = CStatus.issued := hiff.mp rfl
  cases this

/-! ## Claim C8: the read path -/

/-- C8: getCampaign returns the not-found error exactly when no campaign
row carries the requested id; otherwise it returns the campaign together
with the codes of precisely the Issued coupons of that campaign (a
permutation of the filtered rows), listed in non-decreasing issuedAt
order. -/
theorem getCampaign_spec (db : DBState) (cid : Int) :
    ((∀ camp ∈ db.campaigns, camp.id ≠ cid) →
        getCampaignWithCoupons db cid = .error .notFound) ∧
    (∀ camp, getCampaignRow db cid = some camp →
      ∃ rows : List Coupon,
        getCampaignWithCoupons db cid = .ok (camp, rows.map (fun c => c.code)) ∧
        rows.Perm (db.coupons.filter
          (fun c => c.campaignID == cid && c.status == CStatus.issued)) ∧
        rows.Pairwise issuedLe) := by
  constructor
  · intro h
    have hnone : getCampaignRow db cid = none := by
      unfold getCampaignRow
      rw [List.find?_eq_none]
      intro c hc
      simp [h c hc]
    unfold getCampaignWithCoupons
    rw [hnone]
  · intro camp hc
    refine ⟨List.insertionSort issuedLe
      (db.coupons.filter (fun c => c.campaignID == cid && c.status == CStatus.issued)),
      ?_, ?_, ?_⟩
    · unfold getCampaignWithCoupons
      rw [hc]
    · exact List.perm_insertionSort issuedLe _
    · exact List.sorted_insertionSort issuedLe _

/-! ## Concrete witness fixtures -/

/-- A started two-Available-coupon campaign row used by the witnesses. -/
def wCamp : Campaign :=
  { id := 1, availableCoupons := 2, startDate := 0, createdAt := 0, updatedAt := 0 }

/-- A concrete database with one started campaign, two Available coupons
and one already-Issued coupon. -/
def wDb : DBState :=
  { campaigns := [wCamp],
    coupons :=
      [{ code := ['A'], campaignID := 1, status := .available, issuedAt := some 0, createdAt := 0 },
       { code := ['B'], campaignID := 1, status := .available, issuedAt := some 0, createdAt := 0 },
       { code := ['C'], campaignID := 1, status := .issued, issuedAt := some 3, createdAt := 0 }],
    nextCampaignId := 2 }

theorem no_oversell_witness :
    getCampaignRow wDb 1 = some wCamp ∧
    (∀ t ∈ ([5, 6, 7] : List Nat), ¬ t < wCamp.startDate) ∧
    (wDb.coupons.map (fun c => c.code)).Nodup ∧
    ((successes (issueRun wDb 1 [5, 6, 7]).1).length
        = min ([5, 6, 7] : List Nat).length (availableCodes wDb 1).length ∧
      (successes (issueRun wDb 1 [5, 6, 7]).1).Nodup ∧
      (∀ co ∈ successes (issueRun wDb 1 [5, 6, 7]).1, co ∈ availableCodes wDb 1) ∧
      (∀ r ∈ (issueRun wDb 1 [5, 6, 7]).1,
        (∃ co, r = Except.ok co) ∨ r = Except.error SvcErr.exhausted) ∧
      (issueRun wDb 1 [5, 6, 7]).1.length = ([5, 6, 7] : List Nat).length) :=
  ⟨by decide, by decide, by decide,
    no_oversell 1 wCamp [5, 6, 7] wDb (by decide) (by decide) (by decide)⟩

theorem coupon_issuedAt_always_set_witness :
    Reach (createCampaignTx dbInit 1 0 0 0 5 .noFail).2 ∧
    ∀ c ∈ ((createCampaignTx dbInit 1 0 0 0 5 .noFail).2).coupons,
      c.issuedAt.isSome = true :=
  ⟨Reach.create dbInit 1 0 0 0 5 .noFail Reach.init,
    coupon_issuedAt_always_set _ (Reach.create dbInit 1 0 0 0 5 .noFail Reach.init)⟩

theorem issueCoupon_checks_witness :
    (∀ camp ∈ dbInit.campaigns, camp.id ≠ 1) ∧
    IssueCoupon dbInit 1 0 = (.error .notFound, dbInit) :=
  ⟨by decide, (issueCoupon_checks dbInit 1 0).1 (by decide)⟩

theorem getCampaign_spec_witness :
    getCampaignRow wDb 1 = some wCamp ∧
    ∃ rows : List Coupon,
      getCampaignWithCoupons wDb 1 = .ok (wCamp, rows.map (fun c => c.code)) ∧
      rows.Perm (wDb.coupons.filter
        (fun c => c.campaignID == 1 && c.status == CStatus.issued)) ∧
      rows.Pairwise issuedLe :=
  ⟨by decide, (getCampaign_spec wDb 1).2 wCamp (by decide)⟩

theorem createCampaign_nonpositive_witness :
    ((0 : Int) = 0 ∧
      createCampaignTx dbInit 0 7 1 2 3 .noFail =
        (.ok { id := dbInit.nextCampaignId, availableCoupons := 0, startDate := 7,
               createdAt := 1, updatedAt := 1 },
         { campaigns := dbInit.campaigns ++
             [{ id := dbInit.nextCampaignId, availableCoupons := 0, startDate := 7,
                createdAt := 1, updatedAt := 1 }],
           coupons := dbInit.coupons,
           nextCampaignId := dbInit.nextCampaignId + 1 })) ∧
    (((-2) : Int) < 0 ∧
      createCampaignTx dbInit (-2) 7 1 2 3 .noFail = (.error .panicked, dbInit)) :=
  ⟨⟨rfl, (createCampaign_nonpositive_amended dbInit 7 1 2 3 0).1 rfl⟩,
   ⟨by decide, (createCampaign_nonpositive_amended dbInit 7 1 2 3 (-2)).2 (by decide)⟩⟩

/-- The staged state of the chunk-insert witness. -/
def wTxRes : DBState :=
  { campaigns := [], coupons := [mkCouponRow 1 4 9 ['A'], mkCouponRow 1 4 9 ['B']],
    nextCampaignId := 1 }

theorem pregenerated_single_createdAt_witness :
    createPregeneratedCoupons dbInit 1 [['A'], ['B']] 4 9 .noFail = some wTxRes ∧
    ∃ newRows : List Coupon, wTxRes.coupons = dbInit.coupons ++ newRows ∧
      ∀ c ∈ newRows, c.createdAt = 4 :=
  ⟨by decide,
    pregenerated_single_createdAt dbInit 1 [['A'], ['B']] 4 9 .noFail wTxRes (by decide)⟩

end CouponSys
